import Mathlib

/-!
Verification of the image-enrichment / merge-import subsystem.

The TypeScript sources are shallowly embedded: JS strings are modelled as
`String`/`List Char` (every character handled by this program is a single
UTF-16 code unit, so JS index arithmetic coincides with character lists),
JS numbers appearing in exact integer positions as `Nat`/`Int`, and the
real-valued backoff arithmetic as `ℚ`.  Asynchronous code is modelled by
explicit state passing / event traces.
-/

namespace ImageProgram

/-! ### JS string primitives -/

/-- Whitespace as tested by `trim()` and the regex class `\s`, restricted to
the ASCII whitespace characters that occur in the data this program handles. -/
def isJsWs (c : Char) : Bool :=
  c = ' ' || c = '\t' || c = '\n' || c = '\r' || c = '\x0b' || c = '\x0c'

/-- Model of `String.prototype.trim` on a character list. -/
def jsTrimL (l : List Char) : List Char :=
  ((l.dropWhile isJsWs).reverse.dropWhile isJsWs).reverse

/-- Model of `String.prototype.trim`. -/
def jsTrim (s : String) : String := (jsTrimL s.toList).asString

/-- One left-to-right pass of `s.replace(/\s+/g, " ")`: a maximal run of
whitespace becomes a single space.  The Boolean argument records whether the
previous character belonged to a whitespace run. -/
def collapseWsGo : Bool → List Char → List Char
  | _, [] => []
  | prevWs, c :: rest =>
    if isJsWs c then
      if prevWs then collapseWsGo true rest
      else ' ' :: collapseWsGo true rest
    else c :: collapseWsGo false rest

/-- Embedding of `normalizeWhitespace` from `searchQuery.ts` and `titleCleanerAI.ts`:
`s.replace(/\s+/g, " ").trim()`, with `""` for a falsy input. -/
def normalizeWhitespace (s : String) : String :=
  if s = "" then "" else (jsTrimL (collapseWsGo false s.toList)).asString

/-- Model of `String.prototype.indexOf` for a substring needle: the least
position at which `needle` occurs in `hay`. -/
def indexOfSub : List Char → List Char → Option Nat
  | [], needle => if needle.isEmpty then some 0 else none
  | c :: rest, needle =>
    if needle.isPrefixOf (c :: rest) then some 0
    else
      match indexOfSub rest needle with
      | some i => some (i + 1)
      | none => none

/-- Model of `String.prototype.includes` for the strings occurring here. -/
def containsSub (hay needle : List Char) : Bool :=
  (indexOfSub hay needle).isSome

/-- Model of `String.prototype.toLowerCase`, restricted to simple one-to-one
lowercasing (ASCII letters; Hangul is unaffected by JS lowercasing). -/
def jsToLower (l : List Char) : List Char := l.map Char.toLower

/-- Model of `String.prototype.startsWith`. -/
def strStartsWith (s p : String) : Bool := p.toList.isPrefixOf s.toList

/-! ### Embedding of `packages/core/src/utils/searchQuery.ts` -/

/-- The promo-token list of `shortenKoreanProductTitle`, in source order. -/
def promoTokens : List String :=
  ["더블", "기획", "증정", "세트", "세트구성", "구성", "1+1", "2+1", "대용량",
   "리필", "본품", "한정", "특가", "할인", "사은품", "선물", "mini", "미니",
   "기획세트"]

/-- Case-insensitive match of one size unit — the regex alternation
`ml|g|매|개|장`, tried in source order — at the head of the input.  Returns
the matched characters as written in the input together with the remainder. -/
def matchUnit : List Char → Option (List Char × List Char)
  | c1 :: c2 :: rest =>
    if c1.toLower = 'm' && c2.toLower = 'l' then some ([c1, c2], rest)
    else if c1.toLower = 'g' then some ([c1], c2 :: rest)
    else if c1 = '매' || c1 = '개' || c1 = '장' then some ([c1], c2 :: rest)
    else none
  | [c1] =>
    if c1.toLower = 'g' then some ([c1], [])
    else if c1 = '매' || c1 = '개' || c1 = '장' then some ([c1], [])
    else none
  | [] => none

/-- Match of `(\d+\s*(?:ml|g|매|개|장))\s*\+\s*\d+\s*(?:ml|g|매|개|장)` (flags
`gi`) at the head of the input.  Greedy `\d+`/`\s*` here need no backtracking
because digits, whitespace and unit initials are disjoint character classes.
On success: the capture group and the input remaining after the full match. -/
def matchVolPlus (l : List Char) : Option (List Char × List Char) :=
  let ds := l.takeWhile Char.isDigit
  if ds.isEmpty then none
  else
    let r1 := l.drop ds.length
    let s1 := r1.takeWhile isJsWs
    let r2 := r1.drop s1.length
    match matchUnit r2 with
    | none => none
    | some (u1, r3) =>
      let s2 := r3.takeWhile isJsWs
      match r3.drop s2.length with
      | '+' :: r5 =>
        let s3 := r5.takeWhile isJsWs
        let r6 := r5.drop s3.length
        let d2 := r6.takeWhile Char.isDigit
        if d2.isEmpty then none
        else
          let r7 := r6.drop d2.length
          let s4 := r7.takeWhile isJsWs
          let r8 := r7.drop s4.length
          match matchUnit r8 with
          | none => none
          | some (_, r9) => some (ds ++ s1 ++ u1, r9)
      | _ => none

/-- Match of `(\d+\s*(?:ml|g|매|개|장))\s*[x*×]\s*\d+` (flags `gi`) at the head
of the input, same conventions as `matchVolPlus`. -/
def matchVolTimes (l : List Char) : Option (List Char × List Char) :=
  let ds := l.takeWhile Char.isDigit
  if ds.isEmpty then none
  else
    let r1 := l.drop ds.length
    let s1 := r1.takeWhile isJsWs
    let r2 := r1.drop s1.length
    match matchUnit r2 with
    | none => none
    | some (u1, r3) =>
      let s2 := r3.takeWhile isJsWs
      match r3.drop s2.length with
      | c :: r5 =>
        if c.toLower = 'x' || c = '*' || c = '×' then
          let s3 := r5.takeWhile isJsWs
          let r6 := r5.drop s3.length
          let d2 := r6.takeWhile Char.isDigit
          if d2.isEmpty then none else some (ds ++ s1 ++ u1, r6.drop d2.length)
        else none
      | [] => none

/-- Left-to-right global regex replacement with replacement `$1`, driven by a
single-position matcher; the search resumes after each match, exactly as
`String.prototype.replace` with a `g` flag.  The fuel (the input length
suffices, since every step consumes at least one character) only serves
structural termination. -/
def replaceScanGo (m : List Char → Option (List Char × List Char)) :
    Nat → List Char → List Char
  | 0, l => l
  | _ + 1, [] => []
  | fuel + 1, c :: rest =>
    match m (c :: rest) with
    | some (grp, after) => grp ++ replaceScanGo m fuel after
    | none => c :: replaceScanGo m fuel rest

/-- Global replace over a whole input. -/
def replaceScan (m : List Char → Option (List Char × List Char))
    (l : List Char) : List Char :=
  replaceScanGo m l.length l

/-- Leftmost match of `/[\[\(]([^\])]+)[\]\)]\s*$/`: an opening bracket, at
least one following character that is neither `]` nor `)`, the first closing
`]` or `)` after it, then only whitespace up to the end.  Returns the match
position and the captured bracket content. -/
def findTrailingBracket : List Char → Option (Nat × List Char)
  | [] => none
  | c :: rest =>
    let tryHere : Option (List Char) :=
      if c = '[' || c = '(' then
        let content := rest.takeWhile (fun d => !(d = ']' || d = ')'))
        match rest.drop content.length with
        | _ :: after =>
          if !content.isEmpty && after.all isJsWs then some content else none
        | [] => none
      else none
    match tryHere with
    | some content => some (0, content)
    | none =>
      match findTrailingBracket rest with
      | some (i, content) => some (i + 1, content)
      | none => none

/-- Embedding of `shortenKoreanProductTitle` from `searchQuery.ts`: volume normalization
(`40ml+40ml` → `40ml`, `40ml x 2` → `40ml`), truncation at the earliest
promo-token occurrence, removal of a trailing bracket whose content holds a
promo keyword, and whitespace normalization. -/
def shortenKoreanProductTitle (title : String) : String :=
  if title = "" then ""
  else
    let r0 := jsTrimL title.toList
    if r0.isEmpty then ""
    else
      let r1 := replaceScan matchVolPlus r0
      let r2 := replaceScan matchVolTimes r1
      let earliest := promoTokens.foldl
        (fun acc tok =>
          match indexOfSub r2 tok.toList with
          | some i => if i < acc then i else acc
          | none => acc)
        r2.length
      let r3 := if earliest < r2.length then jsTrimL (r2.take earliest) else r2
      let r4 :=
        match findTrailingBracket r3 with
        | some (i, content) =>
          if promoTokens.any
              (fun tok => containsSub (jsToLower content) (jsToLower tok.toList)) then
            jsTrimL (r3.take i)
          else r3
        | none => r3
      (jsTrimL (collapseWsGo false r4)).asString

/-- Embedding of `buildImageSearchQuery` from `searchQuery.ts`: shortened title, with the
brand prepended unless the shortened title already starts with it
(case-insensitively). -/
def buildImageSearchQuery (title : String) (brand : Option String) : String :=
  if title = "" then ""
  else
    let shortTitle := shortenKoreanProductTitle title
    if shortTitle = "" then ""
    else
      match brand with
      | some b =>
        if (jsTrimL b.toList).isEmpty then shortTitle
        else
          let brandTrimmed := (jsTrimL b.toList).asString
          if (jsToLower brandTrimmed.toList).isPrefixOf (jsToLower shortTitle.toList) then
            normalizeWhitespace shortTitle
          else normalizeWhitespace (brandTrimmed ++ " " ++ shortTitle)
      | none => shortTitle

/-- Embedding of `buildFallbackQuery` from `titleCleanerAI.ts` (the deterministic fallback
taken when the AI title-cleaning path is disabled, times out or fails):
whitespace normalization plus brand prepending when the title does not
already start with the brand.  It performs no promo-token truncation. -/
def buildFallbackQuery (title : String) (brand : Option String) : String :=
  if title = "" then ""
  else
    let trimmedTitle := normalizeWhitespace title
    if trimmedTitle = "" then ""
    else
      match brand with
      | some b =>
        if (jsTrimL b.toList).isEmpty then trimmedTitle
        else
          let brandTrimmed := (jsTrimL b.toList).asString
          if (jsToLower brandTrimmed.toList).isPrefixOf (jsToLower trimmedTitle.toList) then
            trimmedTitle
          else normalizeWhitespace (brandTrimmed ++ " " ++ trimmedTitle)
      | none => trimmedTitle

/-- Sanity check against the repository's own test vector: volume
normalization plus promo-token truncation. -/
example :
    shortenKoreanProductTitle "메디힐 마데카소사이드 흔적 리페어 세럼 40ml+40ml 더블 기획" =
      "메디힐 마데카소사이드 흔적 리페어 세럼 40ml" := by decide

/-- Sanity check against the repository's own test vector. -/
example : shortenKoreanProductTitle "제품명 40ml x 2" = "제품명 40ml" := by decide

/-- Sanity check against the repository's own test vector. -/
example : shortenKoreanProductTitle "제품명 40ml*2" = "제품명 40ml" := by decide

/-- Sanity check against the repository's own test vector. -/
example : shortenKoreanProductTitle "제품명   30ml   더블" = "제품명 30ml" := by decide

/-! ### Embedding of `packages/core/src/utils/normalizeUrl.ts` -/

/-- Try the scan used by the first and third regexes of
`extractUrlFromMarkdown`: the lazy `^\[.*?\]\( … \)$` looks for the leftmost
occurrence of `](` after the opening `[` such that the remainder is a
non-empty run of characters without `)` closed by a final `)`.  `needHttp`
asks additionally for an `http(s)://` start of the captured URL. -/
def mdLinkScan (needHttp : Bool) : List Char → Option (List Char)
  | [] => none
  | ']' :: '(' :: t =>
    let url := t.takeWhile (fun d => d ≠ ')')
    if !url.isEmpty && t.drop url.length = [')'] &&
        (!needHttp ||
          ("http://".toList.isPrefixOf url || "https://".toList.isPrefixOf url)) then
      some url
    else
      match mdLinkScan needHttp ('(' :: t) with
      | some u => some u
      | none => none
  | _ :: rest => mdLinkScan needHttp rest

/-- Embedding of `extractUrlFromMarkdown` from `normalizeUrl.ts`: pull the URL out of a
markdown-style link wrapper `[text](url)` or `(url)`; otherwise return the
trimmed input. -/
def extractUrlFromMarkdown (s : String) : String :=
  if s = "" then ""
  else
    let trimmed := jsTrimL s.toList
    match trimmed with
    | '[' :: rest =>
      match mdLinkScan true rest with
      | some url => url.asString
      | none =>
        match mdLinkScan false rest with
        | some url =>
          if "//".toList.isPrefixOf url || "/".toList.isPrefixOf url ||
              url.contains '.' then
            url.asString
          else trimmed.asString
        | none => trimmed.asString
    | '(' :: rest =>
      let url := rest.takeWhile (fun d => d ≠ ')')
      if !url.isEmpty && rest.drop url.length = [')'] &&
          ("http://".toList.isPrefixOf url || "https://".toList.isPrefixOf url) then
        url.asString
      else trimmed.asString
    | _ => trimmed.asString

/-- Embedding of `normalizeHttpUrl` from `normalizeUrl.ts`: trim, expand protocol-relative
`//host` to `https://host`, accept only absolute http(s) URLs. -/
def normalizeHttpUrl (s : String) : Option String :=
  if s = "" then none
  else
    let t := jsTrim s
    if t = "" then none
    else if strStartsWith t "//" then some ("https:" ++ t)
    else if strStartsWith t "http://" || strStartsWith t "https://" then some t
    else none

/-- Embedding of `dedupeUrls` from `normalizeUrl.ts`: drop empty / whitespace-only entries,
trim the rest, and deduplicate preserving first-seen (Set insertion) order. -/
def dedupeUrls (urls : List String) : List String :=
  (urls.foldl
    (fun acc u =>
      if u ≠ "" && jsTrim u ≠ "" then
        if acc.contains (jsTrim u) then acc else acc ++ [jsTrim u]
      else acc)
    [])

/-- Embedding of `normalizeImageUrls` from `normalizeUrl.ts` as called with no base URL:
per URL trim, markdown extraction, protocol-relative expansion and http(s)
validation, then deduplication and truncation to `maxUrls` (default 10). -/
def normalizeImageUrls (urls : List String) (maxUrls : Nat) : List String :=
  let normalized := urls.foldl
    (fun acc url =>
      if url = "" then acc
      else
        let processed := jsTrim url
        if processed = "" then acc
        else
          let processed := extractUrlFromMarkdown processed
          let processed :=
            if strStartsWith processed "//" then "https:" ++ processed else processed
          match normalizeHttpUrl processed with
          | some n =>
            if strStartsWith n "http://" || strStartsWith n "https://" then acc ++ [n]
            else acc
          | none => acc)
    []
  (dedupeUrls normalized).take maxUrls

/-! ### Embedding of `enrichProductImages` (image enrichment service)

The network effects of the service are summarised by oracles: the list of
candidate URLs accumulated from the paginated search, a predicate saying
which URLs `downloadImage` succeeds on, and the local URL `downloadImage`
returns for a given storage index. -/

/-- Model of `Array.from(new Set(xs))`: exact-string deduplication preserving
first-seen order. -/
def dedupeExact (urls : List String) : List String :=
  urls.foldl (fun acc u => if acc.contains u then acc else acc ++ [u]) []

/-- The sequential download loop of `enrichProductImages`: walk the candidate
list, stop once `needed` items were saved, attempt a download for each
remaining candidate, and on success record the storage index
`startIdx + downloaded-so-far` (`d` is the number downloaded so far).
Returns the list of storage indices of the successful saves, in order. -/
def enrichAllocGo (ok : String → Bool) (startIdx needed : Nat) :
    List String → Nat → List Nat
  | [], _ => []
  | url :: rest, d =>
    if needed ≤ d then []
    else if ok url then (startIdx + d) :: enrichAllocGo ok startIdx needed rest (d + 1)
    else enrichAllocGo ok startIdx needed rest d

/-- Result shape of `enrichProductImages`. -/
structure EnrichResult where
  success : Bool
  downloaded : Nat
  finalCount : Nat
  skipped : Bool
deriving Repr, DecidableEq

/-- Embedding of `enrichProductImages` from the image enrichment service, for an existing
product: normalized/deduplicated existing media, skip check against
`desiredCount`, candidate deduplication and filtering, then the sequential
download loop and the final `imagesProcessed` update.  `downloadOk` tells
which candidate URLs download and validate successfully, and `localUrlOf`
is the public URL `downloadImage` returns for a storage index. -/
def enrichProductImages (imagesProcessed imagesOriginal : List String)
    (desiredCount : Nat) (force : Bool) (candidateUrls : List String)
    (downloadOk : String → Bool) (localUrlOf : Nat → String) : EnrichResult :=
  let existingImages := imagesProcessed ++ imagesOriginal
  let normalizedExisting := normalizeImageUrls existingImages 10
  let totalExistingCount := normalizedExisting.length
  if !force && desiredCount ≤ totalExistingCount then
    ⟨true, 0, totalExistingCount, true⟩
  else
    let uniqueCandidates := dedupeExact candidateUrls
    let newUrls := uniqueCandidates.filter
      (fun url =>
        url ≠ "" && (strStartsWith url "http://" || strStartsWith url "https://") &&
          !normalizedExisting.contains url)
    let currentProcessedCount := imagesProcessed.length
    let needed := desiredCount - totalExistingCount
    if needed = 0 then ⟨true, 0, totalExistingCount, false⟩
    else
      let indices := enrichAllocGo downloadOk currentProcessedCount needed newUrls 0
      let downloadedUrls := indices.map localUrlOf
      let updatedImagesProcessed := imagesProcessed ++ downloadedUrls
      ⟨true, downloadedUrls.length, updatedImagesProcessed.length, false⟩

/-! ### C1: index allocation of the download loop -/

/-- Generalisation over the number already downloaded: from `d` downloads the
loop hands out the consecutive indices starting at `startIdx + d`. -/
theorem enrichAllocGo_range (ok : String → Bool) (startIdx needed : Nat) :
    ∀ (urls : List String) (d : Nat),
      enrichAllocGo ok startIdx needed urls d =
        List.range' (startIdx + d) (enrichAllocGo ok startIdx needed urls d).length := by
  intro urls
  induction urls with
  | nil => intro d; simp [enrichAllocGo]
  | cons url rest ih =>
    intro d
    by_cases hn : needed ≤ d
    · simp [enrichAllocGo, hn]
    · by_cases hok : ok url
      · have h2 := ih (d + 1)
        simp only [enrichAllocGo, if_neg hn, if_pos hok]
        rw [List.length_cons, List.range'_succ]
        exact congrArg (List.cons (startIdx + d)) h2
      · simp only [enrichAllocGo, if_neg hn, if_neg hok]
        exact ih d

/-- C1: for every batch of candidates processed by the download allocator with
start index `S` (the count of already-stored processed media), and every
pattern of per-candidate failures, the storage indices assigned to successful
saves are exactly the contiguous block `{S, S+1, …, S+downloaded-1}` — the
list of assigned indices is `range' S downloaded`, an index is assigned iff it
lies in `[S, S+downloaded)`, and no index is assigned twice. -/
theorem c1_download_indices_contiguous (ok : String → Bool) (S needed : Nat)
    (urls : List String) :
    enrichAllocGo ok S needed urls 0 =
      List.range' S (enrichAllocGo ok S needed urls 0).length ∧
    (∀ i : Nat, i ∈ enrichAllocGo ok S needed urls 0 ↔
      S ≤ i ∧ i < S + (enrichAllocGo ok S needed urls 0).length) ∧
    (enrichAllocGo ok S needed urls 0).Nodup := by
  have h := enrichAllocGo_range ok S needed urls 0
  rw [Nat.add_zero] at h
  refine ⟨h, fun i => ?_, ?_⟩
  · constructor
    · intro hi
      rw [h, List.mem_range'_1] at hi
      exact hi
    · intro hi
      rw [h, List.mem_range'_1]
      exact hi
  · rw [h]
    exact List.nodup_range' _ _

/-- C9: the repository's own test vector expects the deterministic cleanup of
`"브랜드 [증정] 제품명 30ml 기획"` to be `"브랜드"`.  The code diverges twice:
`shortenKoreanProductTitle` truncates at the promo token `증정` and keeps the
dangling opening bracket, returning `"브랜드 ["`, and the fallback actually
used when the AI path is disabled or fails (`buildFallbackQuery`) performs no
promo-token truncation at all, returning the whole normalized title. -/
theorem c9_fallback_cleanup_divergence :
    shortenKoreanProductTitle "브랜드 [증정] 제품명 30ml 기획" = "브랜드 [" ∧
    buildFallbackQuery "브랜드 [증정] 제품명 30ml 기획" none =
      "브랜드 [증정] 제품명 30ml 기획" ∧
    shortenKoreanProductTitle "브랜드 [증정] 제품명 30ml 기획" ≠ "브랜드" ∧
    buildFallbackQuery "브랜드 [증정] 제품명 30ml 기획" none ≠ "브랜드" := by
  exact ⟨by decide, by decide, by decide, by decide⟩

/-- The local URL `downloadImage` returns for a storage index, for a fixed
product directory (`publicImageBaseUrl/productId/index.jpg`). -/
def demoLocalUrl (i : Nat) : String :=
  "/uploads/products/p123/" ++ toString i ++ ".jpg"

/-- The four candidate URLs of the C10 scenario. -/
def c10Candidates : List String :=
  ["http://c.com/1.jpg", "http://c.com/2.jpg", "http://c.com/3.jpg",
   "http://c.com/4.jpg"]

/-- C10 counterexample: a record with 2 existing media items that are
original (not processed) media, `desiredCount = 5`, 4 new unique candidates
of which exactly 1 fails.  The run downloads 3 images — but returns
`finalCount = 3`, the new `imagesProcessed` length, not the record's total
media count 5 claimed by the spec. -/
theorem c10_final_count_counterexample :
    enrichProductImages [] ["http://ex.com/a.jpg", "http://ex.com/b.jpg"] 5 false
        c10Candidates (fun u => u ≠ "http://c.com/1.jpg") demoLocalUrl =
      ⟨true, 3, 3, false⟩ ∧ (3 : Nat) ≠ 5 := by
  exact ⟨by decide, by decide⟩

/-- C10 (amended): `finalCount` is the record's `imagesProcessed` count after
the run (initial processed count + downloaded).  For the spec's example —
2 existing media, `desiredCount = 5`, 4 new unique candidates with exactly 1
failing — the run yields `downloaded = 3`, and `finalCount = 5` holds when
the 2 existing media are processed media, whichever of the 4 candidates
fails (when the failing candidate is the 4th, it is never even attempted). -/
theorem c10_enrich_example_amended :
    ∀ u ∈ c10Candidates,
      enrichProductImages ["http://ex.com/a.jpg", "http://ex.com/b.jpg"] [] 5 false
          c10Candidates (fun v => v ≠ u) demoLocalUrl =
        ⟨true, 3, 5, false⟩ := by
  decide

/-- Witness for `c10_enrich_example_amended` at the first candidate. -/
theorem c10_enrich_example_amended_witness :
    enrichProductImages ["http://ex.com/a.jpg", "http://ex.com/b.jpg"] [] 5 false
        c10Candidates (fun v => v ≠ "http://c.com/1.jpg") demoLocalUrl =
      ⟨true, 3, 5, false⟩ :=
  c10_enrich_example_amended "http://c.com/1.jpg" (by decide)

/-! ### Embedding of `apps/api/src/utils/ssrfProtection.ts` -/

/-- Model of `host.split(":")[0]`: the characters before the first `:` (the whole
input when there is none). -/
def beforeColon (l : List Char) : List Char := l.takeWhile (fun c => c ≠ ':')

/-- Model of `hostname.split(".")` on a character list. -/
def splitOnDot (l : List Char) : List (List Char) :=
  match l with
  | [] => [[]]
  | c :: rest =>
    match splitOnDot rest with
    | [] => [[]]
    | g :: gs => if c = '.' then [] :: g :: gs else (c :: g) :: gs

/-- Decimal value of a digit run (`Number` on a short digit string). -/
def digitsToNat (l : List Char) : Nat :=
  l.foldl (fun acc c => acc * 10 + (c.toNat - '0'.toNat)) 0

/-- The regex `^(\d{1,3})\.(\d{1,3})\.(\d{1,3})\.(\d{1,3})$` of
`isPrivateIP`, with the numeric values of the four groups on a match. -/
def ipv4Parts (hostname : List Char) : Option (List Nat) :=
  match splitOnDot hostname with
  | [p1, p2, p3, p4] =>
    if [p1, p2, p3, p4].all
        (fun p => 1 ≤ p.length && p.length ≤ 3 && p.all Char.isDigit) then
      some ([p1, p2, p3, p4].map digitsToNat)
    else none
  | _ => none

/-- Embedding of `isPrivateIP` from `ssrfProtection.ts`.  Note the source computes
`hostname = host.split(":")[0].toLowerCase()` before all comparisons, so
its own `hostname === "::1"` test can never fire: `split(":")` cannot
produce a string containing `:`. -/
def isPrivateIP (host : String) : Bool :=
  if host = "" then true
  else
    let hostname := jsToLower (beforeColon host.toList)
    if hostname = "localhost".toList || hostname = "127.0.0.1".toList ||
        hostname = "::1".toList || hostname = "0.0.0.0".toList then true
    else if hostname = "169.254.169.254".toList then true
    else
      match ipv4Parts hostname with
      | none => false
      | some parts =>
        if parts.any (fun p => 255 < p) then true
        else
          match parts with
          | [a, b, _, _] =>
            if a = 10 then true
            else if a = 172 && 16 ≤ b && b ≤ 31 then true
            else if a = 192 && b = 168 then true
            else if a = 169 && b = 254 then true
            else false
          | _ => false

/-- Parse result of the WHATWG `URL` constructor: the `protocol` getter
(scheme plus `:`) and the `hostname` getter (for an IPv6 literal the
brackets are kept, per the URL host serialisation). -/
structure UrlParts where
  protocol : String
  hostname : String
deriving Repr, DecidableEq

/-- Modelled from the spec: `new URL(url)` is a platform primitive, not
repository code.  This models its behaviour on the absolute http(s)-style
URLs this program handles: the scheme is the lowercased text before `://`,
the authority runs to the first `/`, `?` or `#`, userinfo up to the last `@`
is dropped, a bracketed IPv6 host keeps its brackets, and otherwise the text
before the first `:` (the port separator) is the lowercased hostname. -/
def parseUrl (url : String) : Option UrlParts :=
  match indexOfSub url.toList "://".toList with
  | none => none
  | some i =>
    let scheme := jsToLower (url.toList.take i)
    if scheme.isEmpty then none
    else
      let rest := url.toList.drop (i + 3)
      let authority := rest.takeWhile (fun c => !(c = '/' || c = '?' || c = '#'))
      let hostport := (authority.reverse.takeWhile (fun c => c ≠ '@')).reverse
      match hostport with
      | '[' :: t =>
        let inner := t.takeWhile (fun c => c ≠ ']')
        match t.drop inner.length with
        | ']' :: _ =>
          some ⟨(scheme ++ [':']).asString, ('[' :: (inner ++ [']'])).asString⟩
        | _ => none
      | _ =>
        let hn := hostport.takeWhile (fun c => c ≠ ':')
        if hn.isEmpty then none
        else some ⟨(scheme ++ [':']).asString, (jsToLower hn).asString⟩

/-- Embedding of `isUrlSafe` from `ssrfProtection.ts`: parse the URL (invalid → blocked),
allow only http/https, and block private hostnames via `isPrivateIP`. -/
def isUrlSafe (url : String) : Bool :=
  match parseUrl url with
  | none => false
  | some parsed =>
    if parsed.protocol ≠ "http:" && parsed.protocol ≠ "https:" then false
    else if isPrivateIP parsed.hostname then false
    else true

/-- The only validation `downloadImage` (image downloader service) performs
before issuing its first network request (the HEAD check, then the GET): the
URL must be truthy and start with `http://` or `https://`.  When this holds,
the fetch is attempted; `isUrlSafe` is never consulted on this path. -/
def downloadImagePrefetchAccepts (imageUrl : String) : Bool :=
  !(imageUrl = "" ||
    (!strStartsWith imageUrl "http://" && !strStartsWith imageUrl "https://"))

/-- Sanity: the hosts the policy does block, and a public host it allows. -/
example :
    isUrlSafe "http://10.1.2.3/a.jpg" = false ∧
    isUrlSafe "http://172.16.0.1/a.jpg" = false ∧
    isUrlSafe "http://172.31.255.255/a.jpg" = false ∧
    isUrlSafe "http://192.168.1.1/a.jpg" = false ∧
    isUrlSafe "http://169.254.169.254/latest/meta-data" = false ∧
    isUrlSafe "http://169.254.7.8/a.jpg" = false ∧
    isUrlSafe "http://localhost:8080/a.jpg" = false ∧
    isUrlSafe "http://0.0.0.0/a.jpg" = false ∧
    isUrlSafe "ftp://example.com/a.jpg" = false ∧
    isUrlSafe "https://example.com/a.jpg" = true := by
  decide

/-- C4: the SSRF policy is not applied before the network fetch on the
enrichment path, and the policy itself misses IPv6 loopback.  Concretely:
`downloadImage` accepts the loopback URL `http://127.0.0.1/a.jpg` (a HEAD/GET
is issued) although `isUrlSafe` classifies it as unsafe; and the URL
`http://[::1]/a.jpg` is classified safe even by `isUrlSafe`, because
`isPrivateIP`'s `::1` comparison sits after `split(":")` and can never
match. -/
theorem c4_ssrf_policy_not_enforced :
    downloadImagePrefetchAccepts "http://127.0.0.1/a.jpg" = true ∧
    isUrlSafe "http://127.0.0.1/a.jpg" = false ∧
    isUrlSafe "http://[::1]/a.jpg" = true ∧
    isPrivateIP "::1" = false := by
  exact ⟨by decide, by decide, by decide, by decide⟩

/-! ### Embedding of `apps/api/src/utils/limitConcurrency.ts`

`createLimiter` closes over a counter `active` and a FIFO `queue`; since the
host runtime is single-threaded, each `next()` / enqueue step is atomic and
the limiter is a state machine driven by submission and completion events. -/

/-- State of a `createLimiter` instance: the `active` count and the FIFO
queue of pending task ids. -/
structure LimState where
  active : Nat
  queue : List Nat
deriving Repr, DecidableEq

/-- Model of `Math.max(1, Math.floor(concurrency || 1))` on an integral input: `0`
falls back to `1` through `||`, negatives clamp to `1` through `max`. -/
def capOf (concurrency : Int) : Nat :=
  (max 1 (if concurrency = 0 then 1 else concurrency)).toNat

/-- Model of `next()`: when below the cap and the queue is non-empty, dequeue the
front task and start it (`active++`).  Returns the new state and the id of
the started task, if any. -/
def limNext (cap : Nat) (s : LimState) : LimState × Option Nat :=
  if cap ≤ s.active then (s, none)
  else
    match s.queue with
    | [] => (s, none)
    | t :: rest => (⟨s.active + 1, rest⟩, some t)

/-- Model of `limit(task)`: push the task onto the queue, then `next()`. -/
def limSubmit (cap : Nat) (s : LimState) (t : Nat) : LimState × Option Nat :=
  limNext cap ⟨s.active, s.queue ++ [t]⟩

/-- The `finally` of a task settling (success or failure alike): `active--`,
then `next()`. -/
def limFinish (cap : Nat) (s : LimState) : LimState × Option Nat :=
  limNext cap ⟨s.active - 1, s.queue⟩

/-- An event observable by a limiter: a submission or a task settling. -/
inductive LimEv where
  | submit (t : Nat)
  | finish
deriving Repr, DecidableEq

/-- One event step. -/
def limStep (cap : Nat) (s : LimState) : LimEv → LimState × Option Nat
  | .submit t => limSubmit cap s t
  | .finish => limFinish cap s

/-- Run a trace of events, collecting the ids of started tasks in start
order. -/
def limRun (cap : Nat) : List LimEv → LimState → LimState × List Nat
  | [], s => (s, [])
  | ev :: evs, s =>
    let p := limStep cap s ev
    let q := limRun cap evs p.1
    (q.1, p.2.toList ++ q.2)

/-- Every state passed through while running a trace, start and end
included. -/
def limStatesFrom (cap : Nat) : List LimEv → LimState → List LimState
  | [], s => [s]
  | ev :: evs, s => s :: limStatesFrom cap evs (limStep cap s ev).1

/-- The task ids submitted by a trace, in submission order. -/
def submittedTasks : List LimEv → List Nat
  | [] => []
  | .submit t :: evs => t :: submittedTasks evs
  | .finish :: evs => submittedTasks evs

theorem limNext_active (cap : Nat) (s : LimState) (h : s.active ≤ cap) :
    (limNext cap s).1.active ≤ cap := by
  unfold limNext
  split
  · exact h
  · split
    · exact h
    · simpa using by omega

theorem limNext_queue (cap : Nat) (s : LimState) :
    (limNext cap s).2.toList ++ (limNext cap s).1.queue = s.queue := by
  unfold limNext
  split
  · simp
  · split
    · simp_all
    · simp_all

theorem limStep_active (cap : Nat) (s : LimState) (ev : LimEv)
    (h : s.active ≤ cap) : (limStep cap s ev).1.active ≤ cap := by
  cases ev with
  | submit t => exact limNext_active cap ⟨s.active, s.queue ++ [t]⟩ h
  | finish =>
    exact limNext_active cap ⟨s.active - 1, s.queue⟩
      (show s.active - 1 ≤ cap by omega)

theorem limStep_queue (cap : Nat) (s : LimState) (ev : LimEv) :
    (limStep cap s ev).2.toList ++ (limStep cap s ev).1.queue =
      s.queue ++ (match ev with | .submit t => [t] | .finish => []) := by
  cases ev with
  | submit t => exact limNext_queue cap ⟨s.active, s.queue ++ [t]⟩
  | finish => simpa using limNext_queue cap ⟨s.active - 1, s.queue⟩

theorem limStatesFrom_active (cap : Nat) :
    ∀ (evs : List LimEv) (s : LimState), s.active ≤ cap →
      ∀ s' ∈ limStatesFrom cap evs s, s'.active ≤ cap := by
  intro evs
  induction evs with
  | nil =>
    intro s hs s' hs'
    simp only [limStatesFrom, List.mem_singleton] at hs'
    exact hs' ▸ hs
  | cons ev evs ih =>
    intro s hs s' hs'
    simp only [limStatesFrom, List.mem_cons] at hs'
    rcases hs' with rfl | hs'
    · exact hs
    · exact ih _ (limStep_active cap s ev hs) s' hs'

theorem limRun_fifo (cap : Nat) :
    ∀ (evs : List LimEv) (s : LimState),
      (limRun cap evs s).2 ++ (limRun cap evs s).1.queue =
        s.queue ++ submittedTasks evs := by
  intro evs
  induction evs with
  | nil => intro s; simp [limRun, submittedTasks]
  | cons ev evs ih =>
    intro s
    have hq := limStep_queue cap s ev
    have hr := ih (limStep cap s ev).1
    cases ev with
    | submit t =>
      simp only [limRun, submittedTasks, List.append_assoc]
      rw [hr, ← List.append_assoc, hq]
      simp
    | finish =>
      simp only [limRun, submittedTasks, List.append_assoc]
      rw [hr, ← List.append_assoc, hq]
      simp

/-- C5: for every configured bound `c` and every event trace, no state the
limiter passes through has more than `capOf c = max(1, c)` tasks executing;
for `c ≤ 0` the cap clamps to 1, for `c ≥ 1` it is `c` itself; and the
started tasks followed by the still-pending queue always equal the submitted
tasks in submission order (tasks start in FIFO submission order). -/
theorem c5_limiter_bound (c : Int) (evs : List LimEv) :
    (∀ s ∈ limStatesFrom (capOf c) evs ⟨0, []⟩, s.active ≤ capOf c) ∧
    (limRun (capOf c) evs ⟨0, []⟩).2 ++ (limRun (capOf c) evs ⟨0, []⟩).1.queue =
      submittedTasks evs ∧
    (c ≤ 0 → capOf c = 1) ∧ (1 ≤ c → capOf c = c.toNat) := by
  refine ⟨limStatesFrom_active (capOf c) evs ⟨0, []⟩ (by simp), ?_, ?_, ?_⟩
  · simpa using limRun_fifo (capOf c) evs ⟨0, []⟩
  · intro hc
    unfold capOf
    split
    · simp
    · omega
  · intro hc
    unfold capOf
    split
    · omega
    · omega

/-- Witness for `c5_limiter_bound`: a negative bound clamps to 1. -/
theorem c5_limiter_bound_witness : capOf (-3) = 1 :=
  (c5_limiter_bound (-3) [LimEv.submit 0, LimEv.submit 1, LimEv.finish]).2.2.1
    (by decide)

/-! ### Embedding of `apps/api/src/utils/withRetry.ts`

Real-valued JS arithmetic (`Math.random()`, `0.2`, fractional seconds) is
modelled exactly over `ℚ`; clock readings (`Date.now()`, `Date.parse`) are
integer milliseconds. -/

/-- A present `Retry-After` header value, through the eyes of the JS
primitives the source applies to it: `num` is `Number(ra)` when that is
finite, `dateMs` is `Date.parse(String(ra))` when it yields a valid date. -/
structure RAHeader where
  num : Option ℚ
  dateMs : Option Int
deriving Repr, DecidableEq

/-- An error as inspected by `withRetry`: the status from
`err.response.status ?? err.status`, and the `retry-after` response header
when present and truthy. -/
structure RErr where
  status : Option Int
  retryAfter : Option RAHeader
deriving Repr, DecidableEq

/-- Embedding of `isRetryable`: no status (network/timeout) → retryable; 429 → retryable;
500–599 → retryable; any other 400–499 → bail; everything else → false. -/
def isRetryable (e : RErr) : Bool :=
  match e.status with
  | none => true
  | some s =>
    if s = 429 then true
    else if 500 ≤ s && s ≤ 599 then true
    else if 400 ≤ s && s ≤ 499 then false
    else false

/-- The HTTP-date branch of `parseRetryAfterMs`: a parsed date yields a hint
only when its difference to `Date.now()` is strictly positive. -/
def raDateHint (now : Int) (v : RAHeader) : Option ℚ :=
  match v.dateMs with
  | some d => if 0 < d - now then some ((d - now : Int) : ℚ) else none
  | none => none

/-- Embedding of `parseRetryAfterMs`: a finite non-negative numeric header value means
seconds (`n * 1000` ms); otherwise a parsable HTTP date strictly in the
future means `date − now` ms; otherwise no hint. -/
def parseRetryAfterMs (now : Int) (h : Option RAHeader) : Option ℚ :=
  match h with
  | none => none
  | some v =>
    match v.num with
    | some n => if 0 ≤ n then some (n * 1000) else raDateHint now v
    | none => raDateHint now v

/-- Embedding of `backoffMs(attempt, minMs, maxMs)` with the `Math.random()` draw `r`
passed explicitly (`0.2` is the exact rational 1/5 here). -/
def backoffMs (r : ℚ) (attempt minMs maxMs : Nat) : Int :=
  let expo : ℚ := (minMs : ℚ) * 2 ^ (attempt - 1)
  let base : ℚ := min (maxMs : ℚ) (max (minMs : ℚ) expo)
  let jitter : ℚ := r * base * (2 / 10)
  let wait : ℚ := base + jitter
  max (minMs : Int) (min (maxMs : Int) ⌊wait⌋)

/-- The wait slept before the next attempt:
`raMs ?? backoffMs(attempt, backoffMinMs, backoffMaxMs)`. -/
def nextWaitMs (minMs maxMs : Nat) (r : ℚ) (now : Int) (attempt : Nat)
    (e : RErr) : ℚ :=
  match parseRetryAfterMs now e.retryAfter with
  | some ra => ra
  | none => ((backoffMs r attempt minMs maxMs : Int) : ℚ)

/-- The retry loop of `withRetry`.  `fn a` is the outcome of attempt `a`,
`rand a` the random draw used if attempt `a` computes a backoff, `now` the
clock reading used against a `Retry-After` date.  The fuel starts at
`retryMax` and bounds the remaining loop iterations.  Returns the final
outcome (`.error none` models the final `throw lastErr` with `lastErr`
still undefined, reachable only when `retryMax < 1`), the number of attempts
performed, and the waits slept between attempts in order. -/
def withRetryGo (fn : Nat → Except RErr α) (minMs maxMs : Nat) (rand : Nat → ℚ)
    (now : Int) (retryMax : Nat) :
    Nat → Nat → Except (Option RErr) α × Nat × List ℚ
  | 0, attempt => (.error none, attempt - 1, [])
  | fuel + 1, attempt =>
    match fn attempt with
    | .ok v => (.ok v, attempt, [])
    | .error e =>
      if !isRetryable e then (.error (some e), attempt, [])
      else if retryMax ≤ attempt then (.error (some e), attempt, [])
      else
        let w := nextWaitMs minMs maxMs (rand attempt) now attempt e
        let rest := withRetryGo fn minMs maxMs rand now retryMax fuel (attempt + 1)
        (rest.1, rest.2.1, w :: rest.2.2)

/-- Embedding of `withRetry(fn, opts)`: run the loop from attempt 1. -/
def withRetry (fn : Nat → Except RErr α) (minMs maxMs : Nat) (rand : Nat → ℚ)
    (now : Int) (retryMax : Nat) : Except (Option RErr) α × Nat × List ℚ :=
  withRetryGo fn minMs maxMs rand now retryMax retryMax 1

/-- C6: when the first attempt fails with a status in 400–499 other than 429
(as it does when every attempt would so fail), `withRetry` performs exactly
one attempt, rethrows that error unchanged, and sleeps no backoff. -/
theorem c6_non_retryable_4xx_one_attempt {α : Type} (fn : Nat → Except RErr α)
    (minMs maxMs retryMax : Nat) (rand : Nat → ℚ) (now : Int) (e : RErr)
    (s : Int) (hmax : 1 ≤ retryMax) (hfe : fn 1 = .error e)
    (hs : e.status = some s) (h4 : 400 ≤ s) (h9 : s ≤ 499) (hne : s ≠ 429) :
    withRetry fn minMs maxMs rand now retryMax = (.error (some e), 1, []) := by
  have hret : isRetryable e = false := by
    unfold isRetryable
    rw [hs]
    simp only [if_neg hne]
    have h5 : ¬(500 ≤ s ∧ s ≤ 599) := by omega
    have h45 : 400 ≤ s ∧ s ≤ 499 := ⟨h4, h9⟩
    simp [h5, h45]
  obtain ⟨k, rfl⟩ : ∃ k, retryMax = k + 1 := ⟨retryMax - 1, by omega⟩
  unfold withRetry
  simp [withRetryGo, hfe, hret]

/-- Witness for `c6_non_retryable_4xx_one_attempt` at a constant 404. -/
theorem c6_non_retryable_4xx_one_attempt_witness :
    withRetry (α := Unit) (fun _ => .error ⟨some 404, none⟩) 100 1000
        (fun _ => 0) 0 3 = (.error (some ⟨some 404, none⟩), 1, []) :=
  c6_non_retryable_4xx_one_attempt (fun _ => .error ⟨some 404, none⟩) 100 1000 3
    (fun _ => 0) 0 ⟨some 404, none⟩ 404 (by decide) rfl rfl (by decide)
    (by decide) (by decide)

/-- C7 counterexample: with `backoffMinMs = backoffMaxMs = 100`, attempt 1
and random draw 1/2, `base = 100` and `base + jitter = 110`, yet `backoffMs`
returns 100: the final wait is the clamped `⌊base + jitter⌋`, not
`base + jitter`, and never exceeds `maxBackoffMs`. -/
theorem c7_backoff_clamped_counterexample :
    backoffMs (1/2 : ℚ) 1 100 100 = 100 ∧ (100 : Int) ≠ 110 := by
  constructor
  · unfold backoffMs
    norm_num
  · decide

/-- C7 (amended): with no Retry-After hint the wait before the next retry is
`clamp(⌊base + j⌋, minBackoffMs, maxBackoffMs)` where
`base = clamp(minBackoffMs·2^(a-1), minBackoffMs, maxBackoffMs)` and
`j = r·0.2·base` for the random draw `r ∈ [0,1)`; in particular the final
wait always lies between minBackoffMs and maxBackoffMs and can never exceed
maxBackoffMs. -/
theorem c7_backoff_formula (r : ℚ) (a minMs maxMs : Nat) (ha : 1 ≤ a)
    (hmin : 0 < minMs) (hle : minMs ≤ maxMs) (hr0 : 0 ≤ r) (hr1 : r < 1) :
    backoffMs r a minMs maxMs =
      max (minMs : Int) (min (maxMs : Int)
        ⌊min (maxMs : ℚ) (max (minMs : ℚ) ((minMs : ℚ) * 2 ^ (a - 1))) +
          r * min (maxMs : ℚ) (max (minMs : ℚ) ((minMs : ℚ) * 2 ^ (a - 1))) *
            (2 / 10)⌋) ∧
    (minMs : Int) ≤ backoffMs r a minMs maxMs ∧
    backoffMs r a minMs maxMs ≤ maxMs := by
  refine ⟨rfl, le_max_left _ _, ?_⟩
  exact max_le (by exact_mod_cast hle) (min_le_left _ _)

/-- Witness for `c7_backoff_formula`: bounds at attempt 2, r = 1/2,
min 100, max 1000. -/
theorem c7_backoff_formula_witness :
    (100 : Int) ≤ backoffMs (1/2 : ℚ) 2 100 1000 ∧
      backoffMs (1/2 : ℚ) 2 100 1000 ≤ 1000 :=
  ⟨(c7_backoff_formula (1/2) 2 100 1000 (by decide) (by decide) (by decide)
      (by norm_num) (by norm_num)).2.1,
   (c7_backoff_formula (1/2) 2 100 1000 (by decide) (by decide) (by decide)
      (by norm_num) (by norm_num)).2.2⟩

/-- The concrete 429 error of the C8 counterexample: its `Retry-After`
header is an HTTP date 5 seconds before the current clock (`now = 0`). -/
def c8Err : RErr := ⟨some 429, some ⟨none, some (-5000)⟩⟩

/-- C8 counterexample: a retryable 429 whose `Retry-After` header is an HTTP
date at or before the current time is ignored — `parseRetryAfterMs` yields
no hint and the computed backoff (here 100 ms) is slept, not the
header-derived duration (which the claim says is honored for every such
header value). -/
theorem c8_past_date_counterexample :
    withRetry (α := Unit) (fun a => if a = 1 then .error c8Err else .ok ()) 100 100
        (fun _ => 0) 0 3 = (.ok (), 2, [(100 : ℚ)]) ∧
    parseRetryAfterMs 0 c8Err.retryAfter = none ∧ ((100 : ℚ)) ≠ 0 := by
  refine ⟨?_, by decide, by norm_num⟩
  unfold withRetry
  simp [withRetryGo, c8Err, isRetryable, nextWaitMs, parseRetryAfterMs,
    raDateHint, backoffMs]

/-- C8 (amended): for a retryable failure carrying a `Retry-After` header,
the sleep before the next attempt is exactly the parsed hint — `n · 1000` ms
for a finite non-negative numeric value `n`, `date − now` ms for an HTTP
date strictly after the current time — bypassing the computed backoff; but
for an HTTP date at or before the current time the header yields no hint and
the computed exponential backoff is slept instead. -/
theorem c8_retry_after_honored {α : Type} (fn : Nat → Except RErr α)
    (v : RAHeader) (e : RErr) (minMs maxMs retryMax : Nat) (rand : Nat → ℚ)
    (now : Int) (x : α) (hmax : 2 ≤ retryMax) (hf1 : fn 1 = .error e)
    (hf2 : fn 2 = .ok x) (hret : isRetryable e = true)
    (hra : e.retryAfter = some v) :
    withRetry fn minMs maxMs rand now retryMax =
      (.ok x, 2, [nextWaitMs minMs maxMs (rand 1) now 1 e]) ∧
    (∀ n : ℚ, v.num = some n → 0 ≤ n →
      nextWaitMs minMs maxMs (rand 1) now 1 e = n * 1000) ∧
    (∀ d : Int, v.num = none → v.dateMs = some d → now < d →
      nextWaitMs minMs maxMs (rand 1) now 1 e = ((d - now : Int) : ℚ)) ∧
    (∀ d : Int, v.num = none → v.dateMs = some d → d ≤ now →
      nextWaitMs minMs maxMs (rand 1) now 1 e =
        ((backoffMs (rand 1) 1 minMs maxMs : Int) : ℚ)) := by
  refine ⟨?_, ?_, ?_, ?_⟩
  · obtain ⟨k, rfl⟩ : ∃ k, retryMax = k + 2 := ⟨retryMax - 2, by omega⟩
    unfold withRetry
    have h1 : ¬(k + 2 ≤ 1) := by omega
    simp [withRetryGo, hf1, hf2, hret, h1]
  · intro n hn hn0
    simp [nextWaitMs, parseRetryAfterMs, hra, hn, hn0]
  · intro d hn hd hlt
    have h0 : (0 : Int) < d - now := by omega
    simp [nextWaitMs, parseRetryAfterMs, raDateHint, hra, hn, hd, h0]
  · intro d hn hd hle
    have h0 : ¬((0 : Int) < d - now) := by omega
    simp [nextWaitMs, parseRetryAfterMs, raDateHint, hra, hn, hd, h0]

/-- Witness for `c8_retry_after_honored`: a numeric Retry-After of 2 seconds
is slept exactly (2000 ms). -/
theorem c8_retry_after_honored_witness :
    withRetry (α := Unit)
        (fun a => if a = 1 then .error ⟨some 429, some ⟨some 2, none⟩⟩ else .ok ())
        100 1000 (fun _ => 0) 0 3 = (.ok (), 2, [(2000 : ℚ)]) := by
  have h := c8_retry_after_honored
    (fun a => if a = 1 then .error ⟨some 429, some ⟨some 2, none⟩⟩ else .ok ())
    ⟨some 2, none⟩ ⟨some 429, some ⟨some 2, none⟩⟩ 100 1000 3 (fun _ => 0) 0 ()
    (by decide) rfl rfl (by decide) rfl
  rw [h.1, h.2.1 2 rfl (by norm_num)]
  norm_num

/-! ### Embedding of the merge import (`runImportService.ts`)

The document store is modelled as a list of documents; `bulkWrite` with
`upsert: true` applies its `updateOne` operations in order, each matching on
the identity filter `(store, sourceUrl)`. -/

/-- Embedding of `LOCKABLE_PRODUCT_FIELDS` from `packages/shared`. -/
inductive LockableField where
  | title
  | price
  | descriptionTranslated
  | imagesProcessed
  | status
  | notes
deriving Repr, DecidableEq

/-- An incoming processed product: the fields the merge writes. -/
structure ProcessedProduct where
  store : String
  categoryKey : String
  sourceUrl : String
  title : String
  price : Int
  currency : String
  imagesOriginal : List String
  descriptionOriginal : String
  langOriginal : String
  langTranslated : String
  descriptionTranslated : String
  imagesProcessed : List String
  status : String
  notes : Option String
  titleMn : Option String
deriving Repr, DecidableEq

/-- A stored product document: the same content plus its LockSet. -/
structure StoredProduct where
  store : String
  categoryKey : String
  sourceUrl : String
  title : String
  price : Int
  currency : String
  imagesOriginal : List String
  descriptionOriginal : String
  langOriginal : String
  langTranslated : String
  descriptionTranslated : String
  imagesProcessed : List String
  status : String
  notes : Option String
  titleMn : Option String
  lockedFields : List LockableField
deriving Repr, DecidableEq

/-- The `$set` document built per incoming product.  The eight identity /
category / raw-source fields are always present; each lockable field is
present iff it is not in the LockSet; `titleMn` is present iff truthy.
`none` models a key absent from the update (mongoose strips `undefined`
values, which flattens an undefined incoming `notes` into an absent key). -/
structure SetDoc where
  store : String
  categoryKey : String
  sourceUrl : String
  currency : String
  imagesOriginal : List String
  descriptionOriginal : String
  langOriginal : String
  langTranslated : String
  titleMn : Option String
  title : Option String
  price : Option Int
  imagesProcessed : Option (List String)
  descriptionTranslated : Option String
  status : Option String
  notes : Option String
deriving Repr, DecidableEq

/-- Build the `$set` update for an incoming product given the LockSet read
for its identity (the `bulkOps` construction of `runImportService.ts`). -/
def buildToSet (p : ProcessedProduct) (locked : List LockableField) : SetDoc :=
  { store := p.store
    categoryKey := p.categoryKey
    sourceUrl := p.sourceUrl
    currency := p.currency
    imagesOriginal := p.imagesOriginal
    descriptionOriginal := p.descriptionOriginal
    langOriginal := p.langOriginal
    langTranslated := p.langTranslated
    titleMn :=
      match p.titleMn with
      | some t => if t = "" then none else some t
      | none => none
    title := if LockableField.title ∈ locked then none else some p.title
    price := if LockableField.price ∈ locked then none else some p.price
    imagesProcessed :=
      if LockableField.imagesProcessed ∈ locked then none
      else some p.imagesProcessed
    descriptionTranslated :=
      if LockableField.descriptionTranslated ∈ locked then none
      else some p.descriptionTranslated
    status := if LockableField.status ∈ locked then none else some p.status
    notes := if LockableField.notes ∈ locked then none else p.notes }

/-- Apply a `$set` update to a matched document.  `lockedFields` is
untouched: `$setOnInsert` does not fire on an update, and the import never
writes the LockSet of an existing record. -/
def applySet (e : StoredProduct) (d : SetDoc) : StoredProduct :=
  { store := d.store
    categoryKey := d.categoryKey
    sourceUrl := d.sourceUrl
    currency := d.currency
    imagesOriginal := d.imagesOriginal
    descriptionOriginal := d.descriptionOriginal
    langOriginal := d.langOriginal
    langTranslated := d.langTranslated
    title := d.title.getD e.title
    price := d.price.getD e.price
    imagesProcessed := d.imagesProcessed.getD e.imagesProcessed
    descriptionTranslated := d.descriptionTranslated.getD e.descriptionTranslated
    status := d.status.getD e.status
    notes := match d.notes with | some v => some v | none => e.notes
    titleMn := match d.titleMn with | some v => some v | none => e.titleMn
    lockedFields := e.lockedFields }

/-- The document created by an upsert insert: the `$set` fields plus
`$setOnInsert: { lockedFields: [] }`; fields absent from the update take
schema defaults. -/
def insertDoc (d : SetDoc) : StoredProduct :=
  { store := d.store
    categoryKey := d.categoryKey
    sourceUrl := d.sourceUrl
    currency := d.currency
    imagesOriginal := d.imagesOriginal
    descriptionOriginal := d.descriptionOriginal
    langOriginal := d.langOriginal
    langTranslated := d.langTranslated
    title := d.title.getD ""
    price := d.price.getD 0
    imagesProcessed := d.imagesProcessed.getD []
    descriptionTranslated := d.descriptionTranslated.getD ""
    status := d.status.getD ""
    notes := d.notes
    titleMn := d.titleMn
    lockedFields := [] }

/-- The natural identity of a stored document: `(store, sourceUrl)`. -/
def prodKey (e : StoredProduct) : String × String := (e.store, e.sourceUrl)

/-- Match of the `updateOne` filter against the store. -/
def findDoc (db : List StoredProduct) (st url : String) : Option StoredProduct :=
  db.find? (fun e => e.store = st && e.sourceUrl = url)

/-- Replace the first document matching the filter. -/
def updateFirst (st url : String) (f : StoredProduct → StoredProduct) :
    List StoredProduct → List StoredProduct
  | [] => []
  | e :: rest =>
    if e.store = st && e.sourceUrl = url then f e :: rest
    else e :: updateFirst st url f rest

/-- The outcome counters of `bulkWrite` used by the service:
`matchedCount`, `upsertedCount`, `modifiedCount`. -/
structure MergeStats where
  matched : Nat
  inserted : Nat
  updated : Nat
deriving Repr, DecidableEq

/-- One `updateOne … upsert: true` of the bulk: find by identity; on a match
apply the `$set` (counting `modified` only when the content changes), else
insert.  `lockedOf` is the LockSet map preloaded before the bulk began,
keyed by `sourceUrl` as in the source. -/
def applyOp (lockedOf : String → List LockableField)
    (dbst : List StoredProduct × MergeStats) (p : ProcessedProduct) :
    List StoredProduct × MergeStats :=
  let d := buildToSet p (lockedOf p.sourceUrl)
  match findDoc dbst.1 p.store p.sourceUrl with
  | some e =>
    (updateFirst p.store p.sourceUrl (fun x => applySet x d) dbst.1,
     { dbst.2 with
        matched := dbst.2.matched + 1
        updated := dbst.2.updated + (if applySet e d = e then 0 else 1) })
  | none =>
    (dbst.1 ++ [insertDoc d],
     { dbst.2 with inserted := dbst.2.inserted + 1 })

/-- The LockSet map preloaded before the bulk write (`Product.find` on
`store = params.store`, `sourceUrl ∈ incoming`): for a `sourceUrl` the
lockedFields of the existing document with that identity, else empty. -/
def preloadLocked (db : List StoredProduct) (importStore url : String) :
    List LockableField :=
  match findDoc db importStore url with
  | some e => e.lockedFields
  | none => []

/-- One merge-import run over a batch of incoming products: preload the
LockSet map from the state of the store at batch start, then run the bulk
upserts in order. -/
def runMerge (db0 : List StoredProduct) (importStore : String)
    (ps : List ProcessedProduct) : List StoredProduct × MergeStats :=
  ps.foldl (applyOp (preloadLocked db0 importStore)) (db0, ⟨0, 0, 0⟩)

/-- The net effect of one merge upsert on a matched existing record whose
LockSet was preloaded: the `$set` built from the record's own LockSet,
applied to it. -/
def mergeUpdateRecord (e : StoredProduct) (p : ProcessedProduct) : StoredProduct :=
  applySet e (buildToSet p e.lockedFields)

/-- C2: if `price` is in the record's LockSet, re-running the merge with a
different incoming price leaves the stored price unchanged (the locked field
is omitted from the `$set`), while every non-lockable field (store,
categoryKey, sourceUrl, currency, imagesOriginal, descriptionOriginal,
langOriginal, langTranslated) is written with the incoming value, and every
unlocked lockable field is written with the incoming value (notes, whose
absent incoming value is stripped from the update, when one is present). -/
theorem c2_locked_price_respected (e : StoredProduct) (p : ProcessedProduct)
    (hp : LockableField.price ∈ e.lockedFields) :
    (mergeUpdateRecord e p).price = e.price ∧
    (mergeUpdateRecord e p).store = p.store ∧
    (mergeUpdateRecord e p).categoryKey = p.categoryKey ∧
    (mergeUpdateRecord e p).sourceUrl = p.sourceUrl ∧
    (mergeUpdateRecord e p).currency = p.currency ∧
    (mergeUpdateRecord e p).imagesOriginal = p.imagesOriginal ∧
    (mergeUpdateRecord e p).descriptionOriginal = p.descriptionOriginal ∧
    (mergeUpdateRecord e p).langOriginal = p.langOriginal ∧
    (mergeUpdateRecord e p).langTranslated = p.langTranslated ∧
    (LockableField.title ∉ e.lockedFields →
      (mergeUpdateRecord e p).title = p.title) ∧
    (LockableField.imagesProcessed ∉ e.lockedFields →
      (mergeUpdateRecord e p).imagesProcessed = p.imagesProcessed) ∧
    (LockableField.descriptionTranslated ∉ e.lockedFields →
      (mergeUpdateRecord e p).descriptionTranslated = p.descriptionTranslated) ∧
    (LockableField.status ∉ e.lockedFields →
      (mergeUpdateRecord e p).status = p.status) ∧
    (LockableField.notes ∉ e.lockedFields → ∀ v, p.notes = some v →
      (mergeUpdateRecord e p).notes = some v) := by
  unfold mergeUpdateRecord applySet buildToSet
  refine ⟨by simp [hp], rfl, rfl, rfl, rfl, rfl, rfl, rfl, rfl,
    ?_, ?_, ?_, ?_, ?_⟩
  · intro h; simp [h]
  · intro h; simp [h]
  · intro h; simp [h]
  · intro h; simp [h]
  · intro h v hv; simp [h, hv]

/-- Connection to the full run: a one-record batch against a store holding a
matching record applies exactly `mergeUpdateRecord` — the preloaded LockSet
is the record's own, and the bulk op updates it in place. -/
theorem runMerge_single_match (e : StoredProduct) (p : ProcessedProduct)
    (hst : e.store = p.store) (hurl : e.sourceUrl = p.sourceUrl) :
    (runMerge [e] p.store [p]).1 = [mergeUpdateRecord e p] := by
  unfold runMerge preloadLocked applyOp findDoc mergeUpdateRecord updateFirst
  simp [hst, hurl]

/-- A concrete existing record with a locked price. -/
def c2Existing : StoredProduct :=
  { store := "gmarket", categoryKey := "beauty", sourceUrl := "http://g/1"
    title := "old title", price := 1000, currency := "KRW"
    imagesOriginal := ["http://g/old.jpg"], descriptionOriginal := "old desc"
    langOriginal := "ko", langTranslated := "mn"
    descriptionTranslated := "old trans", imagesProcessed := []
    status := "ready", notes := none, titleMn := none
    lockedFields := [LockableField.price] }

/-- A concrete incoming record with a different price. -/
def c2Incoming : ProcessedProduct :=
  { store := "gmarket", categoryKey := "beauty", sourceUrl := "http://g/1"
    title := "new title", price := 2000, currency := "KRW"
    imagesOriginal := ["http://g/new.jpg"], descriptionOriginal := "new desc"
    langOriginal := "ko", langTranslated := "mn"
    descriptionTranslated := "new trans", imagesProcessed := []
    status := "imported", notes := some "fresh", titleMn := none }

/-- Witness for `c2_locked_price_respected`: the locked price survives the
re-import while raw source media take the incoming value. -/
theorem c2_locked_price_respected_witness :
    (mergeUpdateRecord c2Existing c2Incoming).price = 1000 ∧
    (mergeUpdateRecord c2Existing c2Incoming).imagesOriginal =
      ["http://g/new.jpg"] :=
  ⟨(c2_locked_price_respected c2Existing c2Incoming (by decide)).1,
   (c2_locked_price_respected c2Existing c2Incoming (by decide)).2.2.2.2.2.1⟩

/-! ### C3: idempotence of the merge on identity -/

theorem findDoc_isSome_iff (db : List StoredProduct) (st url : String) :
    (findDoc db st url).isSome ↔ (st, url) ∈ db.map prodKey := by
  unfold findDoc
  rw [List.find?_isSome]
  constructor
  · rintro ⟨e, he, hp⟩
    simp only [Bool.and_eq_true, decide_eq_true_eq] at hp
    exact List.mem_map.mpr ⟨e, he, by simp [prodKey, hp.1, hp.2]⟩
  · intro h
    obtain ⟨e, he, hk⟩ := List.mem_map.mp h
    simp only [prodKey, Prod.mk.injEq] at hk
    exact ⟨e, he, by simp [hk.1, hk.2]⟩

theorem updateFirst_keys (st url : String) (d : SetDoc)
    (hst : d.store = st) (hurl : d.sourceUrl = url) :
    ∀ db : List StoredProduct,
      (updateFirst st url (fun x => applySet x d) db).map prodKey =
        db.map prodKey := by
  intro db
  induction db with
  | nil => rfl
  | cons e rest ih =>
    by_cases h : e.store = st ∧ e.sourceUrl = url
    · simp only [updateFirst]
      rw [if_pos (by simp [h.1, h.2])]
      simp only [List.map_cons, ih]
      congr 1
      simp [prodKey, applySet, hst, hurl, h.1, h.2]
    · simp only [updateFirst]
      rw [if_neg (by simpa using fun h1 h2 => h ⟨h1, h2⟩)]
      simp only [List.map_cons, ih]

theorem applyOp_keys (lockedOf : String → List LockableField)
    (db : List StoredProduct) (stats : MergeStats) (p : ProcessedProduct) :
    ((applyOp lockedOf (db, stats) p).1).map prodKey =
      if (p.store, p.sourceUrl) ∈ db.map prodKey then db.map prodKey
      else db.map prodKey ++ [(p.store, p.sourceUrl)] := by
  unfold applyOp
  cases hf : findDoc db p.store p.sourceUrl with
  | some e =>
    have hmem : (p.store, p.sourceUrl) ∈ db.map prodKey :=
      (findDoc_isSome_iff db _ _).mp (by simp [hf])
    rw [if_pos hmem]
    simpa using updateFirst_keys p.store p.sourceUrl
      (buildToSet p (lockedOf p.sourceUrl)) rfl rfl db
  | none =>
    have hmem : ¬ (p.store, p.sourceUrl) ∈ db.map prodKey := by
      rw [← findDoc_isSome_iff]
      simp [hf]
    rw [if_neg hmem]
    simp [insertDoc, prodKey, buildToSet]

theorem applyOp_inserted (lockedOf : String → List LockableField)
    (db : List StoredProduct) (stats : MergeStats) (p : ProcessedProduct) :
    ((applyOp lockedOf (db, stats) p).2).inserted =
      stats.inserted +
        (if (p.store, p.sourceUrl) ∈ db.map prodKey then 0 else 1) := by
  unfold applyOp
  cases hf : findDoc db p.store p.sourceUrl with
  | some e =>
    have hmem : (p.store, p.sourceUrl) ∈ db.map prodKey :=
      (findDoc_isSome_iff db _ _).mp (by simp [hf])
    simp [hmem]
  | none =>
    have hmem : ¬ (p.store, p.sourceUrl) ∈ db.map prodKey := by
      rw [← findDoc_isSome_iff]
      simp [hf]
    simp [hmem]

/-- The facts about one bulk pass needed for idempotence: keys only grow,
every incoming identity is present afterwards, no insert happens for an
identity already present, and key-uniqueness is preserved. -/
theorem mergeFold_facts (lockedOf : String → List LockableField) :
    ∀ (ps : List ProcessedProduct) (db : List StoredProduct)
      (stats : MergeStats),
      (∀ k ∈ db.map prodKey,
        k ∈ ((ps.foldl (applyOp lockedOf) (db, stats)).1).map prodKey) ∧
      (∀ p ∈ ps, (p.store, p.sourceUrl) ∈
        ((ps.foldl (applyOp lockedOf) (db, stats)).1).map prodKey) ∧
      ((∀ p ∈ ps, (p.store, p.sourceUrl) ∈ db.map prodKey) →
        ((ps.foldl (applyOp lockedOf) (db, stats)).2).inserted =
          stats.inserted) ∧
      ((db.map prodKey).Nodup →
        (((ps.foldl (applyOp lockedOf) (db, stats)).1).map prodKey).Nodup) := by
  intro ps
  induction ps with
  | nil =>
    intro db stats
    exact ⟨fun k hk => hk, by simp, fun _ => rfl, fun h => h⟩
  | cons p ps ih =>
    intro db stats
    have hkeys := applyOp_keys lockedOf db stats p
    have hins := applyOp_inserted lockedOf db stats p
    have ih1 := ih (applyOp lockedOf (db, stats) p).1
      (applyOp lockedOf (db, stats) p).2
    rw [Prod.mk.eta] at ih1
    simp only [List.foldl_cons]
    have hgrow : ∀ k ∈ db.map prodKey,
        k ∈ ((applyOp lockedOf (db, stats) p).1).map prodKey := by
      intro k hk
      rw [hkeys]
      by_cases hmem : (p.store, p.sourceUrl) ∈ db.map prodKey
      · rwa [if_pos hmem]
      · rw [if_neg hmem]
        exact List.mem_append_left _ hk
    have hself : (p.store, p.sourceUrl) ∈
        ((applyOp lockedOf (db, stats) p).1).map prodKey := by
      rw [hkeys]
      by_cases hmem : (p.store, p.sourceUrl) ∈ db.map prodKey
      · rwa [if_pos hmem]
      · rw [if_neg hmem]
        exact List.mem_append_right _ (List.mem_singleton_self _)
    refine ⟨?_, ?_, ?_, ?_⟩
    · intro k hk
      exact ih1.1 k (hgrow k hk)
    · intro q hq
      rcases List.mem_cons.mp hq with rfl | hq
      · exact ih1.1 _ hself
      · exact ih1.2.1 q hq
    · intro hall
      have hp := hall p (List.mem_cons_self p ps)
      have hrest : ∀ q ∈ ps, (q.store, q.sourceUrl) ∈
          ((applyOp lockedOf (db, stats) p).1).map prodKey := by
        intro q hq
        exact hgrow _ (hall q (List.mem_cons_of_mem p hq))
      rw [ih1.2.2.1 hrest, hins, if_pos hp]
      exact Nat.add_zero _
    · intro hnd
      apply ih1.2.2.2
      rw [hkeys]
      by_cases hmem : (p.store, p.sourceUrl) ∈ db.map prodKey
      · rwa [if_pos hmem]
      · rw [if_neg hmem]
        rw [List.nodup_append]
        exact ⟨hnd, List.nodup_singleton _,
          fun k hk hk' => hmem ((List.mem_singleton.mp hk') ▸ hk)⟩

/-- C3: merge import is idempotent on identity.  Replaying the same batch
immediately after a run inserts nothing (`inserted = 0` on the second run),
and when the store's identities `(store, sourceUrl)` are unique at the start
they stay unique after each run — the merge never creates a second row for
an identity, because every write is an upsert keyed by `(store, sourceUrl)`
(`lockedFields` is initialised to empty only on insert and does not affect
which rows exist). -/
theorem c3_merge_idempotent_identity (db : List StoredProduct)
    (importStore : String) (ps : List ProcessedProduct)
    (hnodup : (db.map prodKey).Nodup) :
    ((runMerge (runMerge db importStore ps).1 importStore ps).2).inserted = 0 ∧
    (((runMerge db importStore ps).1).map prodKey).Nodup ∧
    (((runMerge (runMerge db importStore ps).1 importStore ps).1).map prodKey).Nodup := by
  have h1 := mergeFold_facts (preloadLocked db importStore) ps db ⟨0, 0, 0⟩
  have h2 := mergeFold_facts
    (preloadLocked (runMerge db importStore ps).1 importStore) ps
    (runMerge db importStore ps).1 ⟨0, 0, 0⟩
  refine ⟨?_, h1.2.2.2 hnodup, h2.2.2.2 (h1.2.2.2 hnodup)⟩
  exact h2.2.2.1 h1.2.1

/-- A concrete incoming record for the idempotence witness. -/
def c3Incoming : ProcessedProduct :=
  { store := "gmarket", categoryKey := "beauty", sourceUrl := "http://g/2"
    title := "fresh", price := 900, currency := "KRW"
    imagesOriginal := [], descriptionOriginal := ""
    langOriginal := "ko", langTranslated := "mn"
    descriptionTranslated := "", imagesProcessed := []
    status := "imported", notes := none, titleMn := none }

/-- Witness for `c3_merge_idempotent_identity`: replaying a one-record batch
against an initially empty store inserts nothing the second time. -/
theorem c3_merge_idempotent_identity_witness :
    ((runMerge (runMerge [] "gmarket" [c3Incoming]).1 "gmarket"
      [c3Incoming]).2).inserted = 0 :=
  (c3_merge_idempotent_identity [] "gmarket" [c3Incoming] (by simp)).1

end ImageProgram
